import Mathlib

/-!
Verification development for the Snowflake SQL statement-extraction engine
(`LakeBridge_s/service/sql_parser.py`).  The Python source is shallowly
embedded: text is `List Char`, offsets are `Nat`, and the `-1` sentinel of
Python `str.find` is kept as an `Int` because the code threads it through
further calls.  Loops whose index advances by a variable amount are embedded
with an explicit fuel argument that is always instantiated with a sufficient
bound, so every definition is executable and kernel-reducible.
-/

namespace SqlExtract

/-- Whitespace class used by the source both for `\s` in its regexes and for
`str.strip` / `str.split`.  The Python classes also accept some rare Unicode
whitespace; the inputs of this development are ASCII, where the two agree. -/
def isPySpace (c : Char) : Bool :=
  c = ' ' || c = '\t' || c = '\n' || c = '\r' || c = '\x0b' || c = '\x0c'

/-- Python `str.strip()`: drop leading and trailing whitespace. -/
def pyStrip (l : List Char) : List Char :=
  ((l.dropWhile isPySpace).reverse.dropWhile isPySpace).reverse

/-- Scanning core of Python `str.find`: first index `j ≥ i` (the counter `i`
is the absolute position of the head of the remaining list) at which `sub`
is a prefix.  All call sites in the source pass a nonempty `sub`. -/
def findFromAux (sub : List Char) : List Char → Nat → Option Nat
  | [], i => if sub.isEmpty then some i else none
  | c :: rest, i =>
    if sub.isPrefixOf (c :: rest) then some i else findFromAux sub rest (i + 1)

/-- Python `content.find(sub, start)` with Python's signed-start semantics:
a negative `start` counts from the end of the string (clamped at 0), and the
result is `-1` when there is no occurrence.  `_find_procedure_end` really
does call `find` with start `-1`, so the signed behaviour matters. -/
def strFind (content sub : List Char) (start : Int) : Int :=
  let s : Nat := (if start < 0 then (content.length : Int) + start else start).toNat
  match findFromAux sub (content.drop s) s with
  | some j => (j : Int)
  | none => -1

/-- Substring test (used only to state claims, e.g. that a counterexample
input does contain a given clause). -/
def containsSub (l sub : List Char) : Bool :=
  (findFromAux sub l 0).isSome

/-- Python `remaining.find(sub)` inside `_extract_object_name`, with the
`-1` sentinel. -/
def pyFindIn (l sub : List Char) : Int :=
  match findFromAux sub l 0 with
  | some j => (j : Int)
  | none => -1

/-- Scanning loop of `_find_semicolon_end`: walk the remaining characters
(absolute position `i`), tracking single-quote, double-quote and
backslash-escape state exactly as the Python loop does; answer the offset
one past the first terminating semicolon, or `none` at end of input. -/
def semiAux : List Char → Nat → Bool → Bool → Bool → Option Nat
  | [], _, _, _, _ => none
  | c :: rest, i, sq, dq, esc =>
    if esc = true then semiAux rest (i + 1) sq dq false
    else if c = '\\' then semiAux rest (i + 1) sq dq true
    else if c = '\'' ∧ dq = false then semiAux rest (i + 1) (!sq) dq false
    else if c = '"' ∧ sq = false then semiAux rest (i + 1) sq (!dq) false
    else if c = ';' ∧ sq = false ∧ dq = false then some (i + 1)
    else semiAux rest (i + 1) sq dq esc

/-- `_find_semicolon_end`: position one past the next semicolon that is not
inside a string literal, or `len(content)` when there is none. -/
def findSemicolonEnd (content : List Char) (startPos : Nat) : Nat :=
  (semiAux (content.drop startPos) startPos false false false).getD content.length

/-- Uppercased slice `content[i:i+n].upper()` used by `_find_begin_end_end`
for its case-insensitive `BEGIN`/`END` probes. -/
def upperSlice (content : List Char) (i n : Nat) : List Char :=
  ((content.drop i).take n).map Char.toUpper

/-- Loop body of `_find_begin_end_end`.  The index advances by 5, 3 or 1,
so the recursion is driven by a fuel argument; `findBeginEndEnd` supplies
`content.length + 1`, which the loop can never exhaust before `i` passes
the end of the text.  The depth counter is an `Int` because the Python
variable can go negative on unbalanced input. -/
def beginEndAux (content : List Char) : Nat → Nat → Int → Int
  | 0, _, _ => -1
  | fuel + 1, i, cnt =>
    if i < content.length then
      if upperSlice content i 5 = "BEGIN".toList then
        beginEndAux content fuel (i + 5) (cnt + 1)
      else if upperSlice content i 3 = "END".toList then
        (if cnt - 1 = 0 then
          (let semi := strFind content (";".toList) ((i : Int) + 3)
           if semi ≠ -1 then semi + 1 else (i : Int) + 3)
         else beginEndAux content fuel (i + 3) (cnt - 1))
      else beginEndAux content fuel (i + 1) cnt
    else -1

/-- `_find_begin_end_end`: nested-block depth matching from `startPos`. -/
def findBeginEndEnd (content : List Char) (startPos : Nat) : Int :=
  beginEndAux content (content.length + 1) startPos 0

/-- `_find_dollar_quote_end`: find the closing `$$`, then the first
semicolon after it (one past it), else one past the closing `$$`;
`-1` when the dollar quote is unterminated. -/
def findDollarQuoteEnd (content : List Char) (startPos : Nat) : Int :=
  let endPos := strFind content ("$$".toList) ((startPos : Int) + 2)
  if endPos = -1 then -1
  else
    let semi := strFind content (";".toList) (endPos + 2)
    if semi ≠ -1 then semi + 1 else endPos + 2

/-- `_find_procedure_end`.  Faithful to the source, including the slip on
line 224: when no `$$` is found after `AS`/`LANGUAGE`, `body_start` is `-1`
and `content.find('BEGIN', -1)` scans only the final character, so it can
never find `BEGIN` and the `_find_begin_end_end` branch is unreachable. -/
def findProcedureEnd (content : List Char) (startPos : Nat) : Int :=
  let b0 := strFind content ("AS".toList) (startPos : Int)
  let b1 := if b0 = -1 then strFind content ("LANGUAGE".toList) (startPos : Int) else b0
  if b1 = -1 then (findSemicolonEnd content startPos : Int)
  else
    let b2 := strFind content ("$$".toList) b1
    let b3 := if b2 = -1 then strFind content ("BEGIN".toList) b2 else b2
    if b3 = -1 then (findSemicolonEnd content startPos : Int)
    else if (content.drop b3.toNat).take 2 = "$$".toList then
      findDollarQuoteEnd content b3.toNat
    else findBeginEndEnd content b3.toNat

/-!
Anchor patterns.  Each regex of the pattern catalog has the restricted
shape "keyword, `\s+`, [optional `OR \s+ REPLACE \s+`], keyword, `\s+`";
since `\s+` is greedy and every keyword starts with a letter, regex
matching is deterministic except for the optional group, which the regex
engine tries with the group first and then without it.  A matcher takes
the remaining text and answers the text left after the match (`none` when
the pattern does not match at this position). -/

/-- Case-insensitive literal-word match (the regexes are compiled with
`re.IGNORECASE`). -/
def matchWordCI : List Char → List Char → Option (List Char)
  | [], l => some l
  | _ :: _, [] => none
  | w :: ws, c :: cs => if c.toLower = w.toLower then matchWordCI ws cs else none

/-- Greedy `\s+`: consume one or more whitespace characters, maximally. -/
def wsPlus : List Char → Option (List Char)
  | [] => none
  | c :: rest => if isPySpace c then some (rest.dropWhile isPySpace) else none

/-- Sequence of keywords, each followed by `\s+`. -/
def matchKeywordsWs : List (List Char) → List Char → Option (List Char)
  | [], l => some l
  | w :: ws, l =>
    match matchWordCI w l with
    | none => none
    | some r =>
      match wsPlus r with
      | none => none
      | some r2 => matchKeywordsWs ws r2

/-- Matcher for `CREATE\s+(?:OR\s+REPLACE\s+)?KW\s+`: after `CREATE\s+`,
first try the optional group followed by the keyword, then the keyword
alone (regex backtracking over the optional group). -/
def matchCreate (kw : List Char) (l : List Char) : Option (List Char) :=
  match matchKeywordsWs ["CREATE".toList] l with
  | none => none
  | some r =>
    match matchKeywordsWs ["OR".toList, "REPLACE".toList, kw] r with
    | some r2 => some r2
    | none => matchKeywordsWs [kw] r

/-- Matcher for `ALTER\s+KW\s+`. -/
def matchAlter (kw : List Char) (l : List Char) : Option (List Char) :=
  matchKeywordsWs ["ALTER".toList, kw] l

/-- Matcher for `DROP\s+KW\s+`. -/
def matchDrop (kw : List Char) (l : List Char) : Option (List Char) :=
  matchKeywordsWs ["DROP".toList, kw] l

/-- Matcher for `INSERT\s+INTO\s+`. -/
def matchInsertInto (l : List Char) : Option (List Char) :=
  matchKeywordsWs ["INSERT".toList, "INTO".toList] l

/-- Loop of `pattern.finditer(content)`: emit the start offsets of the
leftmost non-overlapping matches, resuming after each match.  Every
matcher of the catalog consumes at least one character on success, so a
fuel of `content.length` is enough for the whole scan. -/
def finditerAux (m : List Char → Option (List Char)) : Nat → List Char → Nat → List Nat
  | 0, _, _ => []
  | _ + 1, [], _ => []
  | fuel + 1, c :: rest, i =>
    match m (c :: rest) with
    | some r =>
      let n := (c :: rest).length - r.length
      i :: finditerAux m fuel ((c :: rest).drop n) (i + n)
    | none => finditerAux m fuel rest (i + 1)

/-- All match-start offsets of one pattern in the content. -/
def finditer (m : List Char → Option (List Char)) (content : List Char) : List Nat :=
  finditerAux m content.length content 0

/-- `pattern.search(text)`: leftmost match, as `(start, end)` offsets. -/
def searchAux (m : List Char → Option (List Char)) : List Char → Nat → Option (Nat × Nat)
  | [], _ => none
  | c :: rest, i =>
    match m (c :: rest) with
    | some r => some (i, i + ((c :: rest).length - r.length))
    | none => searchAux m rest (i + 1)

/-!
The SQL object model and the pattern catalog
(`SQLObjectType`, `SQLObject`, `SnowflakeSQLParser.patterns`). -/

/-- Enumeration of SQL object types (`SQLObjectType`). -/
inductive SQLObjectType where
  | TABLE | VIEW | FUNCTION | PROCEDURE | SEQUENCE | STAGE | PIPE
  | TASK | WAREHOUSE | DATABASE | SCHEMA | INSERT | OTHER
  deriving DecidableEq, Repr

/-- The `value` string of each enum member. -/
def typeValue : SQLObjectType → List Char
  | .TABLE => "tables".toList
  | .VIEW => "views".toList
  | .FUNCTION => "functions".toList
  | .PROCEDURE => "procedures".toList
  | .SEQUENCE => "sequences".toList
  | .STAGE => "stages".toList
  | .PIPE => "pipes".toList
  | .TASK => "tasks".toList
  | .WAREHOUSE => "warehouses".toList
  | .DATABASE => "databases".toList
  | .SCHEMA => "schemas".toList
  | .INSERT => "inserts".toList
  | .OTHER => "others".toList

/-- SQL keyword of each category that has create/alter/drop anchors. -/
def keywordOf : SQLObjectType → List Char
  | .TABLE => "TABLE".toList
  | .VIEW => "VIEW".toList
  | .FUNCTION => "FUNCTION".toList
  | .PROCEDURE => "PROCEDURE".toList
  | .SEQUENCE => "SEQUENCE".toList
  | .STAGE => "STAGE".toList
  | .PIPE => "PIPE".toList
  | .TASK => "TASK".toList
  | .WAREHOUSE => "WAREHOUSE".toList
  | .DATABASE => "DATABASE".toList
  | .SCHEMA => "SCHEMA".toList
  | .INSERT => "INSERT".toList
  | .OTHER => "OTHER".toList

/-- Anchor patterns per category, in source order (`self.patterns`):
create-or-replace, alter, drop; a single `INSERT INTO` anchor for
`INSERT`; no patterns at all for `OTHER` (it has no entry in the dict). -/
def anchorsFor : SQLObjectType → List (List Char → Option (List Char))
  | .INSERT => [matchInsertInto]
  | .OTHER => []
  | t => [matchCreate (keywordOf t), matchAlter (keywordOf t), matchDrop (keywordOf t)]

/-- Iteration order of `self.compiled_patterns.items()` (dict insertion
order; `OTHER` is absent from the dict). -/
def typeOrder : List SQLObjectType :=
  [.TABLE, .VIEW, .FUNCTION, .PROCEDURE, .SEQUENCE, .STAGE, .PIPE,
   .TASK, .WAREHOUSE, .DATABASE, .SCHEMA, .INSERT]

/-!
Name extraction (`_extract_object_name`): strip `--` line comments, strip
`/* ... */` block comments, collapse whitespace, re-locate the anchor, and
cut the identifier out of the remainder. -/

/-- Removal of `re.sub(r'--.*$', '', ..., flags=re.MULTILINE)`: from each
`--` to the end of its line (the newline itself is kept).  The flag tells
whether the scan is currently inside a line comment. -/
def stripLineCommentsAux : Bool → List Char → List Char
  | _, [] => []
  | true, c :: rest =>
    if c = '\n' then c :: stripLineCommentsAux false rest
    else stripLineCommentsAux true rest
  | false, '-' :: '-' :: rest => stripLineCommentsAux true rest
  | false, c :: rest => c :: stripLineCommentsAux false rest

/-- Strip `--` line comments. -/
def stripLineComments (l : List Char) : List Char :=
  stripLineCommentsAux false l

/-- Remainder of the text after the first `*/`, if any. -/
def afterBlockClose : List Char → Option (List Char)
  | [] => none
  | '*' :: '/' :: rest => some rest
  | _ :: rest => afterBlockClose rest

/-- Removal of `re.sub(r'/\*.*?\*/', '', ..., flags=re.DOTALL)`: each `/*`
up to the nearest `*/` (non-greedy), across newlines; a `/*` with no
closing `*/` does not match and is kept verbatim.  Fuel-driven because a
removed comment skips a block of characters; `stripBlockComments` passes
the length of the text, which cannot be exhausted. -/
def stripBlockCommentsAux : Nat → List Char → List Char
  | 0, l => l
  | _ + 1, [] => []
  | fuel + 1, '/' :: '*' :: rest =>
    (match afterBlockClose rest with
     | some suffix => stripBlockCommentsAux fuel suffix
     | none => '/' :: '*' :: rest)
  | fuel + 1, c :: rest => c :: stripBlockCommentsAux fuel rest

/-- Strip `/* ... */` block comments. -/
def stripBlockComments (l : List Char) : List Char :=
  stripBlockCommentsAux l.length l

/-- Python `str.split()` (no argument): split on runs of whitespace,
dropping empty pieces.  The accumulator holds the current word reversed. -/
def pySplitAux : List Char → List Char → List (List Char)
  | [], acc => if acc.isEmpty then [] else [acc.reverse]
  | c :: rest, acc =>
    if isPySpace c then
      if acc.isEmpty then pySplitAux rest [] else acc.reverse :: pySplitAux rest []
    else pySplitAux rest (c :: acc)

/-- Python `str.split()`. -/
def pySplit (l : List Char) : List (List Char) :=
  pySplitAux l []

/-- `' '.join(clean_sql.split())`: collapse all whitespace runs to single
spaces and trim the ends. -/
def collapseWs (l : List Char) : List Char :=
  List.intercalate [' '] (pySplit l)

/-- Character class kept by `re.sub(r'[^\w._]', '', name)`:  word
characters plus dot and underscore. -/
def keepNameChar (c : Char) : Bool :=
  c.isAlphanum || c = '_' || c = '.'

/-- Slice of `_extract_object_name` that turns the text following a
matched anchor into the `name_part` and then the cleaned name; `none`
when `name_part.split()` is empty, in which case the Python loop falls
through to the next pattern. -/
def nameFromRemainder (t : SQLObjectType) (remaining0 : List Char) : Option (List Char) :=
  let remaining := pyStrip remaining0
  let name_part :=
    if t = SQLObjectType.PROCEDURE ∨ t = SQLObjectType.FUNCTION then
      (let paren_pos := pyFindIn remaining ("(".toList)
       if paren_pos ≠ -1 then pyStrip (remaining.take paren_pos.toNat) else remaining)
    else if t = SQLObjectType.INSERT then
      (let values_pos := pyFindIn remaining ("VALUES".toList)
       let paren_pos := pyFindIn remaining ("(".toList)
       if values_pos ≠ -1 ∧ (paren_pos = -1 ∨ values_pos < paren_pos) then
         pyStrip (remaining.take values_pos.toNat)
       else if paren_pos ≠ -1 then pyStrip (remaining.take paren_pos.toNat)
       else remaining)
    else remaining
  match pySplit name_part with
  | [] => none
  | w :: _ => some (w.filter keepNameChar)

/-- Pattern loop of `_extract_object_name`: first pattern whose match
yields a nonempty `name_part.split()` wins. -/
def extractNameLoop (t : SQLObjectType) (clean : List Char) :
    List (List Char → Option (List Char)) → Option (List Char)
  | [] => none
  | m :: ms =>
    match searchAux m clean 0 with
    | some (_, e) =>
      (match nameFromRemainder t (clean.drop e) with
       | some nm => some nm
       | none => extractNameLoop t clean ms)
    | none => extractNameLoop t clean ms

/-- `_extract_object_name`.  The fallback name uses Python's `hash` of the
statement text; `hash` is fixed within one interpreter process but salted
across processes, so it is modelled as an explicit parameter `hf`. -/
def extractObjectName (hf : List Char → Nat) (sql : List Char) (t : SQLObjectType) : List Char :=
  let clean := collapseWs (stripBlockComments (stripLineComments sql))
  match extractNameLoop t clean (anchorsFor t) with
  | some nm => nm
  | none =>
    "unnamed_".toList ++ typeValue t ++ "_".toList ++ (Nat.repr (hf sql % 10000)).toList

/-!
Dependency extraction (`_extract_dependencies`): `re.findall` of
`KW\s+([a-zA-Z_][a-zA-Z0-9_.]*)` for KW in FROM/JOIN/UPDATE/INTO/TABLE. -/

/-- First character class `[a-zA-Z_]` of a referenced identifier. -/
def isIdentStart (c : Char) : Bool := c.isAlpha || c = '_'

/-- Continuation class `[a-zA-Z0-9_.]` of a referenced identifier. -/
def isIdentChar (c : Char) : Bool := c.isAlphanum || c = '_' || c = '.'

/-- Match one dependency pattern at the head of `l`: the keyword
(case-insensitive), `\s+`, then a maximal identifier.  Answers the
captured identifier and the text after the whole match. -/
def matchDep (kw : List Char) (l : List Char) : Option (List Char × List Char) :=
  match matchWordCI kw l with
  | none => none
  | some r =>
    match wsPlus r with
    | none => none
    | some r2 =>
      match r2 with
      | [] => none
      | c :: rest =>
        if isIdentStart c then
          some (c :: rest.takeWhile isIdentChar, rest.dropWhile isIdentChar)
        else none

/-- `re.findall` loop for one dependency pattern: leftmost non-overlapping
matches, each capture collected.  Fuel-driven like `finditerAux`. -/
def findallDepAux (kw : List Char) : Nat → List Char → List (List Char)
  | 0, _ => []
  | _ + 1, [] => []
  | fuel + 1, c :: rest =>
    match matchDep kw (c :: rest) with
    | some (ident, r) => ident :: findallDepAux kw fuel r
    | none => findallDepAux kw fuel rest

/-- All captures of one dependency pattern in the statement text. -/
def findallDep (kw : List Char) (sql : List Char) : List (List Char) :=
  findallDepAux kw sql.length sql

/-- Order-preserving first-occurrence deduplication.  The source builds
`list(set(...))`, whose element order Python leaves unspecified (fixed
within one process); the claims about the collection use only membership
and the absence of duplicates, which any order realises. -/
def dedupFirstAux : List (List Char) → List (List Char) → List (List Char)
  | [], _ => []
  | x :: xs, seen =>
    if seen.contains x then dedupFirstAux xs seen
    else x :: dedupFirstAux xs (x :: seen)

/-- The keyword list of `_extract_dependencies`, in source order. -/
def depKeywords : List (List Char) :=
  ["FROM".toList, "JOIN".toList, "UPDATE".toList, "INTO".toList, "TABLE".toList]

/-- `_extract_dependencies`: gather all captures of the five patterns,
strip them, drop empty ones, and deduplicate. -/
def extractDependencies (sql : List Char) : List (List Char) :=
  let all := depKeywords.flatMap (fun kw => findallDep kw sql)
  dedupFirstAux ((all.filter (fun d => ¬ (pyStrip d).isEmpty)).map pyStrip) []

/-!
Assembly of the parser: `SQLObject`, `_extract_complete_object`,
`parse_content`, `_remove_overlapping_objects`, `parse_file`,
`parse_folder`. -/

/-- A parsed SQL object (`SQLObject`). -/
structure SQLObject where
  name : List Char
  object_type : SQLObjectType
  sql_content : List Char
  start_line : Nat
  end_line : Nat
  file_path : List Char
  dependencies : List (List Char)
  deriving DecidableEq, Repr

/-- 1-based line number of offset `s` in the content
(`content[:start_pos].count('\n') + 1`). -/
def lineAt (content : List Char) (s : Nat) : Nat :=
  (content.take s).count '\n' + 1

/-- `_find_object_end`: procedures and functions use the BEGIN/dollar
resolver, everything else the plain semicolon scan. -/
def findObjectEnd (content : List Char) (startPos : Nat) (t : SQLObjectType) : Int :=
  if t = SQLObjectType.PROCEDURE ∨ t = SQLObjectType.FUNCTION then
    findProcedureEnd content startPos
  else (findSemicolonEnd content startPos : Int)

/-- `_extract_complete_object`: resolve the end offset; on `-1` drop the
match, otherwise build the record from the stripped slice. -/
def extractCompleteObject (hf : List Char → Nat) (content : List Char) (startPos : Nat)
    (t : SQLObjectType) (startLine : Nat) (path : List Char) : Option SQLObject :=
  let endPos := findObjectEnd content startPos t
  if endPos = -1 then none
  else
    let sql := pyStrip ((content.take endPos.toNat).drop startPos)
    some { name := extractObjectName hf sql t
           object_type := t
           sql_content := sql
           start_line := startLine
           end_line := (content.take endPos.toNat).count '\n' + 1
           file_path := path
           dependencies := extractDependencies sql }

/-- Candidate records contributed by one category: every anchor pattern of
the category, every match of the pattern, extracted at its start offset. -/
def candidatesFor (hf : List Char → Nat) (content path : List Char)
    (t : SQLObjectType) : List SQLObject :=
  (anchorsFor t).flatMap (fun m =>
    (finditer m content).filterMap (fun s =>
      extractCompleteObject hf content s t (lineAt content s) path))

/-- Stable insertion of one record into a list sorted by `start_line`
(equal keys keep their existing order, as with Python's stable sort). -/
def insertByStart (o : SQLObject) : List SQLObject → List SQLObject
  | [] => [o]
  | x :: xs =>
    if x.start_line ≤ o.start_line then x :: insertByStart o xs else o :: x :: xs

/-- `objects.sort(key=lambda x: x.start_line)` (stable). -/
def sortByStart (l : List SQLObject) : List SQLObject :=
  l.foldl (fun acc o => insertByStart o acc) []

/-- Overlap test of `_remove_overlapping_objects`:
`obj.start_line <= existing.end_line and obj.end_line >= existing.start_line`. -/
def overlapsB (o e : SQLObject) : Bool :=
  decide (o.start_line ≤ e.end_line ∧ o.end_line ≥ e.start_line)

/-- Walk of `_remove_overlapping_objects`: keep a candidate only when it
overlaps none of the records already kept. -/
def removeOverlappingGo : List SQLObject → List SQLObject → List SQLObject
  | acc, [] => acc
  | acc, o :: rest =>
    if acc.any (fun e => overlapsB o e) then removeOverlappingGo acc rest
    else removeOverlappingGo (acc ++ [o]) rest

/-- `_remove_overlapping_objects`: the first record is always kept. -/
def removeOverlapping : List SQLObject → List SQLObject
  | [] => []
  | o :: rest => removeOverlappingGo [o] rest

/-- `parse_content`: all candidates over all categories in catalog order,
sorted by start line (stably), overlaps removed. -/
def parseContent (hf : List Char → Nat) (content path : List Char) : List SQLObject :=
  removeOverlapping (sortByStart (typeOrder.flatMap (candidatesFor hf content path)))

/-- `parse_file`: the file read is embedded as an `Option` — `none` when
`open`/`read` raises (the `except` arm, which prints and answers `[]`),
`some content` when it succeeds. -/
def parseFile (hf : List Char → Nat) (readResult : Option (List Char))
    (path : List Char) : List SQLObject :=
  match readResult with
  | none => []
  | some content => parseContent hf content path

/-- Python `f.endswith('.sql')` (exact, case-sensitive). -/
def hasSqlExt (name : List Char) : Bool :=
  (".sql".toList).isSuffixOf name

/-- `parse_folder`.  The directory is embedded as an existence flag plus
the `os.listdir` entries in listing order, each entry a name together with
`some content` when opening and reading it succeeds and `none` when it
raises (unreadable file, or a subdirectory).  The result dict, created
with every `SQLObjectType` as a key, is embedded as a total function. -/
def parseFolder (hf : List Char → Nat) (dirExists : Bool) (dirPath : List Char)
    (entries : List (List Char × Option (List Char))) : SQLObjectType → List SQLObject :=
  if dirExists then
    let sqlFiles := entries.filter (fun e => hasSqlExt e.1)
    if sqlFiles.isEmpty then fun _ => []
    else fun t =>
      (sqlFiles.flatMap (fun e => parseFile hf e.2 (dirPath ++ "/".toList ++ e.1))).filter
        (fun o => o.object_type = t)
  else fun _ => []

/-!
Declarative (specification-side) notions used to state the claims: the
quote-tracking state machine of the default boundary rule, and
"least occurrence" positions for substring searches. -/

/-- One step of the quote-tracking state machine of
`_find_semicolon_end`; the state is `(in_single, in_double, escape_next)`. -/
def qstep (st : Bool × Bool × Bool) (c : Char) : Bool × Bool × Bool :=
  if st.2.2 = true then (st.1, st.2.1, false)
  else if c = '\\' then (st.1, st.2.1, true)
  else if c = '\'' ∧ st.2.1 = false then (!st.1, st.2.1, false)
  else if c = '"' ∧ st.1 = false then (st.1, !st.2.1, false)
  else st

/-- Quote state reached just before reading position `j` of `l`, starting
from state `st`. -/
def qstateAt (l : List Char) (st : Bool × Bool × Bool) (j : Nat) : Bool × Bool × Bool :=
  (l.take j).foldl qstep st

/-- Position `j` of `l` carries a terminating semicolon: its character is
`;` and the scan is in no quoted or escaped state when reading it. -/
def termB (l : List Char) (st : Bool × Bool × Bool) (j : Nat) : Bool :=
  match l.get? j with
  | some c => decide (c = ';' ∧ qstateAt l st j = (false, false, false))
  | none => false

/-- Index of the first terminating semicolon of `l`, if any. -/
def firstTerm (l : List Char) (st : Bool × Bool × Bool) : Option Nat :=
  (List.range l.length).find? (termB l st)

/-- Least position `j ≥ s` of `content` at which `sub` occurs, if any. -/
def leastOcc (content sub : List Char) (s : Nat) : Option Nat :=
  (List.range' s (content.length - s)).find? (fun j => sub.isPrefixOf (content.drop j))

/-- Two records occupy disjoint line ranges (the negation of the source's
overlap test, in the direction from `a` to `b`). -/
def noOverlap (a b : SQLObject) : Prop :=
  ¬ (a.start_line ≤ b.end_line ∧ a.end_line ≥ b.start_line)

/-- Rebuild a record's name with hash function `hf` from fields the
record itself carries; used to state that the hash seed can influence
nothing but the fallback name. -/
def withName (hf : List Char → Nat) (o : SQLObject) : SQLObject :=
  { o with name := extractObjectName hf o.sql_content o.object_type }

/-- A fixed hash parameter standing for one interpreter process. -/
def hfZero : List Char → Nat := fun _ => 0

/-- Nested-block test input of claim C1 (from the specification's nested
block handling property). -/
def c1input : List Char :=
  "CREATE PROCEDURE p() AS BEGIN IF x THEN BEGIN y; END; END; END;".toList

/-- Quote-awareness test input of claim C2. -/
def c2input : List Char := "INSERT INTO t VALUES ('a;b');".toList

/-- Dollar-quoted body test input of claim C3. -/
def c3input : List Char := "CREATE FUNCTION f() RETURNS INT AS $$ return 1; $$;".toList

/-- Unterminated single quote: input of the C5 counterexample. -/
def c5quoteInput : List Char := "INSERT INTO t VALUES ('a;".toList

/-- A function whose dollar-quoted body never closes, followed by a intact
table statement on the next line (C5 amended behaviour). -/
def c5dropInput : List Char := "CREATE FUNCTION f() AS $$ x;\nCREATE TABLE t (a INT);".toList

/-- A statement whose name extraction must fall back to the synthetic
placeholder: the anchor needs trailing whitespace, which `strip` removes
from the extracted text (C6). -/
def c6input : List Char := "CREATE TABLE\n".toList

/-- Category-assignment test input of claim C8. -/
def c8input : List Char := "CREATE OR REPLACE VIEW v AS SELECT 1;".toList

/-- Dependency-extraction test input of claim C9 (the specification's own
example). -/
def c9exInput : List Char := "SELECT * FROM a JOIN b ON a.id=b.id;".toList

/-- Counterexample input of claim C9: the leftmost `FROM` match captures
the identifier `FROM` and its span swallows the second `FROM`, so the
clause `FROM a JOIN b` contributes no dependency `a`. -/
def c9ctrInput : List Char := "x FROM FROM a JOIN b y".toList

/-!
Proof layer: characterizations of the scanning primitives, invariants of
the overlap resolver, hash-seed independence, and the claim theorems.
-/


theorem termB_cons_zero (c : Char) (rest : List Char) (st : Bool × Bool × Bool) :
    termB (c :: rest) st 0 = decide (c = ';' ∧ st = (false, false, false)) := by
  simp [termB, qstateAt]

theorem termB_cons_succ (c : Char) (rest : List Char) (st : Bool × Bool × Bool) (j : Nat) :
    termB (c :: rest) st (j + 1) = termB rest (qstep st c) j := by
  simp [termB, qstateAt, List.take_succ_cons]

theorem firstTerm_cons (c : Char) (rest : List Char) (st : Bool × Bool × Bool) :
    firstTerm (c :: rest) st =
      if termB (c :: rest) st 0 then some 0
      else (firstTerm rest (qstep st c)).map (· + 1) := by
  unfold firstTerm
  rw [show (c :: rest).length = rest.length + 1 from rfl, List.range_succ_eq_map]
  rw [List.find?_cons]
  cases h0 : termB (c :: rest) st 0 with
  | true => simp [h0]
  | false =>
    simp only [h0, Bool.false_eq_true, if_false]
    rw [List.find?_map]
    rfl

theorem map_shift (o : Option Nat) (i : Nat) :
    (o.map (· + 1)).map (fun j => i + j + 1) = o.map (fun j => (i + 1) + j + 1) := by
  cases o with
  | none => rfl
  | some a => exact congrArg some (show i + (a + 1) + 1 = (i + 1) + a + 1 from by omega)

theorem semiAux_eq (l : List Char) : ∀ (i : Nat) (sq dq esc : Bool),
    semiAux l i sq dq esc = (firstTerm l (sq, dq, esc)).map (fun j => i + j + 1) := by
  induction l with
  | nil => intro i sq dq esc; simp [semiAux, firstTerm]
  | cons c rest ih =>
    intro i sq dq esc
    rw [firstTerm_cons, termB_cons_zero]
    cases esc with
    | true =>
      rw [show semiAux (c :: rest) i sq dq true = semiAux rest (i + 1) sq dq false from by
        simp [semiAux]]
      rw [ih, show qstep (sq, dq, true) c = (sq, dq, false) from by simp [qstep]]
      rw [if_neg (by simp)]
      rw [← map_shift]
    | false =>
      by_cases h2 : c = '\\'
      · subst h2
        rw [show semiAux ('\\' :: rest) i sq dq false = semiAux rest (i + 1) sq dq true from by
          simp [semiAux]]
        rw [ih, show qstep (sq, dq, false) '\\' = (sq, dq, true) from by simp [qstep]]
        rw [if_neg (by simp)]
        rw [← map_shift]
      · by_cases h3 : c = '\'' ∧ dq = false
        · obtain ⟨hc, hdq⟩ := h3
          subst hc; subst hdq
          rw [show semiAux ('\'' :: rest) i sq false false =
              semiAux rest (i + 1) (!sq) false false from by simp [semiAux]]
          rw [ih, show qstep (sq, false, false) '\'' = (!sq, false, false) from by simp [qstep]]
          rw [if_neg (by simp)]
          rw [← map_shift]
        · by_cases h4 : c = '"' ∧ sq = false
          · obtain ⟨hc, hsq⟩ := h4
            subst hc; subst hsq
            rw [show semiAux ('"' :: rest) i false dq false =
                semiAux rest (i + 1) false (!dq) false from by simp [semiAux, h3]]
            rw [ih, show qstep (false, dq, false) '"' = (false, !dq, false) from by
              simp [qstep, h3]]
            rw [if_neg (by simp)]
            rw [← map_shift]
          · by_cases h5 : c = ';' ∧ sq = false ∧ dq = false
            · obtain ⟨hc, hsq, hdq⟩ := h5
              subst hc; subst hsq; subst hdq
              rw [show semiAux (';' :: rest) i false false false = some (i + 1) from by
                simp [semiAux]]
              rw [if_pos (by simp)]
              rfl
            · have hterm : ¬ (decide (c = ';' ∧ (sq, dq, false) = (false, false, false)) = true) := by
                simp only [decide_eq_true_eq]
                rintro ⟨hc, hst⟩
                simp only [Prod.mk.injEq] at hst
                exact h5 ⟨hc, hst.1, hst.2.1⟩
              rw [show semiAux (c :: rest) i sq dq false = semiAux rest (i + 1) sq dq false from by
                simp [semiAux, h2, h3, h4, h5]]
              rw [ih, show qstep (sq, dq, false) c = (sq, dq, false) from by
                simp [qstep, h2, h3, h4]]
              rw [if_neg hterm]
              rw [← map_shift]

theorem findSemicolonEnd_eq (content : List Char) (start : Nat) :
    findSemicolonEnd content start =
      match firstTerm (content.drop start) (false, false, false) with
      | some j => start + j + 1
      | none => content.length := by
  unfold findSemicolonEnd
  rw [semiAux_eq]
  cases firstTerm (content.drop start) (false, false, false) with
  | none => rfl
  | some j => rfl

theorem findFromAux_drop_eq (sub content : List Char) (hsub : sub ≠ []) :
    ∀ (n s : Nat), content.length - s = n →
      findFromAux sub (content.drop s) s = leastOcc content sub s := by
  intro n
  induction n with
  | zero =>
    intro s hs
    have hle : content.length ≤ s := Nat.le_of_sub_eq_zero hs
    rw [List.drop_eq_nil_of_le hle]
    unfold findFromAux leastOcc
    rw [hs]
    simp [List.isEmpty_iff, hsub]
  | succ n ihn =>
    intro s hs
    have hlt : s < content.length := by omega
    rw [List.drop_eq_getElem_cons hlt]
    unfold findFromAux
    rw [← List.drop_eq_getElem_cons hlt]
    unfold leastOcc
    rw [hs, List.range'_succ, List.find?_cons]
    cases hp : sub.isPrefixOf (content.drop s) with
    | true => simp [hp]
    | false =>
      simp only [hp, Bool.false_eq_true, if_false]
      have := ihn (s + 1) (by omega)
      rw [this]
      unfold leastOcc
      have : content.length - (s + 1) = n := by omega
      rw [this]

theorem strFind_nat_eq (content sub : List Char) (hsub : sub ≠ []) (s : Nat) :
    strFind content sub (s : Int) =
      match leastOcc content sub s with
      | some j => (j : Int)
      | none => -1 := by
  unfold strFind
  have h1 : ¬ ((s : Int) < 0) := by omega
  rw [if_neg h1, Int.toNat_ofNat]
  show (match findFromAux sub (content.drop s) s with
        | some j => (j : Int)
        | none => -1) = _
  rw [findFromAux_drop_eq sub content hsub (content.length - s) s rfl]

theorem leastOcc_mem_lower {content sub : List Char} {s j : Nat}
    (h : leastOcc content sub s = some j) : s ≤ j ∧ j < content.length := by
  have hm := List.mem_of_find?_eq_some h
  rw [List.mem_range'_1] at hm
  omega

theorem findDollarQuoteEnd_eq (content : List Char) (startPos : Nat) :
    findDollarQuoteEnd content startPos =
      match leastOcc content ("$$".toList) (startPos + 2) with
      | none => -1
      | some e =>
        match leastOcc content (";".toList) (e + 2) with
        | some sp => (sp : Int) + 1
        | none => (e : Int) + 2 := by
  unfold findDollarQuoteEnd
  have hcast : ((startPos : Int) + 2) = ((startPos + 2 : Nat) : Int) := by push_cast; ring
  rw [hcast, strFind_nat_eq content ("$$".toList) (by decide) (startPos + 2)]
  cases hdd : leastOcc content ("$$".toList) (startPos + 2) with
  | none => simp
  | some e =>
    have he : ¬ ((e : Int) = -1) := by omega
    simp only [if_neg he]
    have hcast2 : ((e : Int) + 2) = ((e + 2 : Nat) : Int) := by push_cast; ring
    rw [hcast2, strFind_nat_eq content (";".toList) (by decide) (e + 2)]
    cases hsp : leastOcc content (";".toList) (e + 2) with
    | none => simp
    | some sp =>
      have : ¬ ((sp : Int) = -1) := by omega
      simp [this]

theorem noOverlap_symm {a b : SQLObject} (h : noOverlap a b) : noOverlap b a := by
  unfold noOverlap at *
  rintro ⟨h1, h2⟩
  exact h ⟨h2, h1⟩

theorem overlapsB_false {o e : SQLObject} (h : overlapsB o e = false) : noOverlap o e := by
  unfold overlapsB at h
  unfold noOverlap
  simpa using h

theorem removeOverlappingGo_pairwise :
    ∀ (rest acc : List SQLObject),
      acc.Pairwise (fun a b => noOverlap a b ∧ noOverlap b a) →
      (removeOverlappingGo acc rest).Pairwise (fun a b => noOverlap a b ∧ noOverlap b a) := by
  intro rest
  induction rest with
  | nil => intro acc h; exact h
  | cons o rest ih =>
    intro acc h
    unfold removeOverlappingGo
    cases hany : acc.any (fun e => overlapsB o e) with
    | true => simpa [hany] using ih acc h
    | false =>
      simp only [hany, Bool.false_eq_true, if_false]
      apply ih
      rw [List.pairwise_append]
      refine ⟨h, by simp, ?_⟩
      intro a ha b hb
      rw [List.mem_singleton] at hb
      subst hb
      have hfalse : overlapsB b a = false := by
        rw [List.any_eq_false] at hany
        simpa using hany a ha
      have hno := overlapsB_false hfalse
      exact ⟨noOverlap_symm hno, hno⟩

theorem removeOverlapping_pairwise (l : List SQLObject) :
    (removeOverlapping l).Pairwise (fun a b => noOverlap a b ∧ noOverlap b a) := by
  cases l with
  | nil => simp [removeOverlapping]
  | cons o rest =>
    unfold removeOverlapping
    exact removeOverlappingGo_pairwise rest [o] (by simp)

theorem mem_removeOverlappingGo :
    ∀ (rest acc : List SQLObject) (x : SQLObject),
      x ∈ removeOverlappingGo acc rest → x ∈ acc ∨ x ∈ rest := by
  intro rest
  induction rest with
  | nil => intro acc x hx; exact Or.inl hx
  | cons o rest ih =>
    intro acc x hx
    unfold removeOverlappingGo at hx
    cases hany : acc.any (fun e => overlapsB o e) with
    | true =>
      rw [hany] at hx
      simp only [if_pos rfl] at hx
      rcases ih acc x hx with h | h
      · exact Or.inl h
      · exact Or.inr (List.mem_cons_of_mem o h)
    | false =>
      rw [hany] at hx
      simp only [Bool.false_eq_true, if_false] at hx
      rcases ih (acc ++ [o]) x hx with h | h
      · rw [List.mem_append, List.mem_singleton] at h
        rcases h with h | h
        · exact Or.inl h
        · exact Or.inr (h ▸ List.mem_cons_self o rest)
      · exact Or.inr (List.mem_cons_of_mem o h)

theorem mem_removeOverlapping {l : List SQLObject} {x : SQLObject}
    (hx : x ∈ removeOverlapping l) : x ∈ l := by
  cases l with
  | nil => simp [removeOverlapping] at hx
  | cons o rest =>
    unfold removeOverlapping at hx
    rcases mem_removeOverlappingGo rest [o] x hx with h | h
    · rw [List.mem_singleton] at h
      exact h ▸ List.mem_cons_self o rest
    · exact List.mem_cons_of_mem o h

theorem mem_insertByStart {x o : SQLObject} :
    ∀ {l : List SQLObject}, x ∈ insertByStart o l → x = o ∨ x ∈ l := by
  intro l
  induction l with
  | nil => intro h; simp [insertByStart] at h; exact Or.inl h
  | cons y ys ih =>
    intro h
    unfold insertByStart at h
    by_cases hc : y.start_line ≤ o.start_line
    · rw [if_pos hc] at h
      rcases List.mem_cons.mp h with h | h
      · exact Or.inr (h ▸ List.mem_cons_self y ys)
      · rcases ih h with h | h
        · exact Or.inl h
        · exact Or.inr (List.mem_cons_of_mem y h)
    · rw [if_neg hc] at h
      rcases List.mem_cons.mp h with h | h
      · exact Or.inl h
      · exact Or.inr h

theorem mem_sortByStart_aux :
    ∀ (l acc : List SQLObject) (x : SQLObject),
      x ∈ List.foldl (fun acc o => insertByStart o acc) acc l → x ∈ acc ∨ x ∈ l := by
  intro l
  induction l with
  | nil => intro acc x h; exact Or.inl h
  | cons o rest ih =>
    intro acc x h
    rcases ih (insertByStart o acc) x h with h | h
    · rcases mem_insertByStart h with h | h
      · exact Or.inr (h ▸ List.mem_cons_self o rest)
      · exact Or.inl h
    · exact Or.inr (List.mem_cons_of_mem o h)

theorem mem_sortByStart {l : List SQLObject} {x : SQLObject}
    (h : x ∈ sortByStart l) : x ∈ l := by
  rcases mem_sortByStart_aux l [] x h with h | h
  · simp at h
  · exact h

theorem extractCompleteObject_type {hf : List Char → Nat} {content : List Char} {s : Nat}
    {t : SQLObjectType} {line : Nat} {path : List Char} {o : SQLObject}
    (h : extractCompleteObject hf content s t line path = some o) : o.object_type = t := by
  simp only [extractCompleteObject] at h
  split at h
  · exact absurd h (by simp)
  · injection h with h'
    rw [← h']

theorem candidatesFor_type {hf : List Char → Nat} {content path : List Char}
    {t : SQLObjectType} {o : SQLObject} (h : o ∈ candidatesFor hf content path t) :
    o.object_type = t := by
  unfold candidatesFor at h
  rw [List.mem_flatMap] at h
  obtain ⟨m, -, hm⟩ := h
  rw [List.mem_filterMap] at hm
  obtain ⟨s, -, hs⟩ := hm
  exact extractCompleteObject_type hs

theorem mem_parseContent_candidates {hf : List Char → Nat} {content path : List Char}
    {o : SQLObject} (h : o ∈ parseContent hf content path) :
    o ∈ candidatesFor hf content path o.object_type := by
  unfold parseContent at h
  have h1 := mem_sortByStart (mem_removeOverlapping h)
  rw [List.mem_flatMap] at h1
  obtain ⟨t, -, ht⟩ := h1
  have := candidatesFor_type ht
  rw [← this] at ht
  exact ht

theorem withName_start_line (hf : List Char → Nat) (o : SQLObject) :
    (withName hf o).start_line = o.start_line := rfl

theorem withName_end_line (hf : List Char → Nat) (o : SQLObject) :
    (withName hf o).end_line = o.end_line := rfl

theorem extractCompleteObject_withName (hf hf' : List Char → Nat) (content : List Char)
    (s : Nat) (t : SQLObjectType) (line : Nat) (path : List Char) :
    extractCompleteObject hf content s t line path =
      Option.map (withName hf) (extractCompleteObject hf' content s t line path) := by
  simp only [extractCompleteObject]
  split
  · rfl
  · simp [withName]

theorem candidatesFor_withName (hf hf' : List Char → Nat) (content path : List Char)
    (t : SQLObjectType) :
    candidatesFor hf content path t =
      (candidatesFor hf' content path t).map (withName hf) := by
  unfold candidatesFor
  rw [List.map_flatMap]
  congr 1
  funext m
  rw [List.map_filterMap]
  apply List.filterMap_congr
  intro s _
  exact extractCompleteObject_withName hf hf' content s t (lineAt content s) path

theorem insertByStart_map (f : SQLObject → SQLObject)
    (hs : ∀ o, (f o).start_line = o.start_line) (o : SQLObject) :
    ∀ (l : List SQLObject), insertByStart (f o) (l.map f) = (insertByStart o l).map f := by
  intro l
  induction l with
  | nil => rfl
  | cons x xs ih =>
    simp only [List.map_cons, insertByStart, hs]
    by_cases hc : x.start_line ≤ o.start_line
    · rw [if_pos hc, if_pos hc, List.map_cons, ih]
    · rw [if_neg hc, if_neg hc]
      simp

theorem sortByStart_map (f : SQLObject → SQLObject)
    (hs : ∀ o, (f o).start_line = o.start_line) :
    ∀ (l acc : List SQLObject),
      List.foldl (fun acc o => insertByStart o acc) (acc.map f) (l.map f) =
        (List.foldl (fun acc o => insertByStart o acc) acc l).map f := by
  intro l
  induction l with
  | nil => intro acc; rfl
  | cons o rest ih =>
    intro acc
    simp only [List.map_cons, List.foldl_cons]
    rw [insertByStart_map f hs o acc, ih]

theorem sortByStart_map' (f : SQLObject → SQLObject)
    (hs : ∀ o, (f o).start_line = o.start_line) (l : List SQLObject) :
    sortByStart (l.map f) = (sortByStart l).map f := by
  unfold sortByStart
  have := sortByStart_map f hs l []
  simpa using this

theorem overlapsB_map (f : SQLObject → SQLObject)
    (hs : ∀ o, (f o).start_line = o.start_line)
    (he : ∀ o, (f o).end_line = o.end_line) (o e : SQLObject) :
    overlapsB (f o) (f e) = overlapsB o e := by
  unfold overlapsB
  rw [hs, he, hs, he]

theorem removeOverlappingGo_map (f : SQLObject → SQLObject)
    (hs : ∀ o, (f o).start_line = o.start_line)
    (he : ∀ o, (f o).end_line = o.end_line) :
    ∀ (rest acc : List SQLObject),
      removeOverlappingGo (acc.map f) (rest.map f) = (removeOverlappingGo acc rest).map f := by
  intro rest
  induction rest with
  | nil => intro acc; rfl
  | cons o rest ih =>
    intro acc
    simp only [List.map_cons, removeOverlappingGo]
    have hany : (acc.map f).any (fun e => overlapsB (f o) e) = acc.any (fun e => overlapsB o e) := by
      rw [List.any_map]
      congr 1
      funext e
      exact overlapsB_map f hs he o e
    rw [hany]
    by_cases hc : acc.any (fun e => overlapsB o e) = true
    · rw [if_pos hc, if_pos hc, ih]
    · rw [if_neg hc, if_neg hc]
      have : acc.map f ++ [f o] = (acc ++ [o]).map f := by simp
      rw [this, ih]

theorem removeOverlapping_map (f : SQLObject → SQLObject)
    (hs : ∀ o, (f o).start_line = o.start_line)
    (he : ∀ o, (f o).end_line = o.end_line) (l : List SQLObject) :
    removeOverlapping (l.map f) = (removeOverlapping l).map f := by
  cases l with
  | nil => rfl
  | cons o rest =>
    simp only [List.map_cons, removeOverlapping]
    have : [f o] = [o].map f := rfl
    rw [this, removeOverlappingGo_map f hs he rest [o]]

theorem parseContent_withName (hf hf' : List Char → Nat) (content path : List Char) :
    parseContent hf content path = (parseContent hf' content path).map (withName hf) := by
  unfold parseContent
  have hcand : typeOrder.flatMap (candidatesFor hf content path) =
      (typeOrder.flatMap (candidatesFor hf' content path)).map (withName hf) := by
    rw [List.map_flatMap]
    apply List.flatMap_congr
    intro t _
    exact candidatesFor_withName hf hf' content path t
  rw [hcand, sortByStart_map' (withName hf) (withName_start_line hf),
      removeOverlapping_map (withName hf) (withName_start_line hf) (withName_end_line hf)]

theorem parseFolder_true_eq (hf : List Char → Nat) (dirPath : List Char)
    (entries : List (List Char × Option (List Char))) (t : SQLObjectType) :
    parseFolder hf true dirPath entries t =
      ((entries.filter (fun e => hasSqlExt e.1)).flatMap
        (fun e => parseFile hf e.2 (dirPath ++ "/".toList ++ e.1))).filter
        (fun o => o.object_type = t) := by
  unfold parseFolder
  simp only [if_pos rfl]
  by_cases hempty : (entries.filter (fun e => hasSqlExt e.1)).isEmpty
  · rw [List.isEmpty_iff] at hempty
    simp [hempty]
  · simp only [hempty, Bool.false_eq_true, if_false]
    simp

theorem dedupFirstAux_nodup :
    ∀ (l seen : List (List Char)),
      (dedupFirstAux l seen).Nodup ∧ ∀ x ∈ dedupFirstAux l seen, x ∉ seen := by
  intro l
  induction l with
  | nil => intro seen; simp [dedupFirstAux]
  | cons x xs ih =>
    intro seen
    unfold dedupFirstAux
    by_cases hc : seen.contains x = true
    · rw [if_pos hc]
      exact ih seen
    · rw [if_neg hc]
      obtain ⟨hnodup, hnotin⟩ := ih (x :: seen)
      constructor
      · rw [List.nodup_cons]
        constructor
        · intro hx
          exact hnotin x hx (List.mem_cons_self x seen)
        · exact hnodup
      · intro y hy hyseen
        rcases List.mem_cons.mp hy with h | h
        · subst h
          simp at hc
          exact hc hyseen
        · exact hnotin y h (List.mem_cons_of_mem x hyseen)

theorem extractDependencies_nodup (sql : List Char) : (extractDependencies sql).Nodup := by
  unfold extractDependencies
  exact (dedupFirstAux_nodup _ []).1

/-- Claim C1 (code bug): for `CREATE PROCEDURE p() AS BEGIN IF x THEN BEGIN y;
END; END; END;` the claim requires the boundary resolver to match BEGIN/END
depth and stop only at the semicolon after the depth-zero `END` (offset 58,
as `findBeginEndEnd` from the body start would); the code instead stops at
the first semicolon (offset 48), because `content.find('BEGIN', -1)` can
never find `BEGIN` and the nested-block path is dead code, so the extracted
record is truncated inside the block. -/
theorem claim_C1_nested_begin_end :
    findProcedureEnd c1input 0 = 48 ∧
    findBeginEndEnd c1input 24 = 58 ∧
    parseContent hfZero c1input [] =
      [{ name := "p".toList, object_type := SQLObjectType.PROCEDURE,
         sql_content := "CREATE PROCEDURE p() AS BEGIN IF x THEN BEGIN y;".toList,
         start_line := 1, end_line := 1, file_path := [], dependencies := [] }] := by
  refine ⟨by decide, by decide, by decide⟩

/-- Claim C2: the default boundary rule ends a statement exactly one past
the first semicolon that the quote-tracking state machine reads outside any
quoted or escaped state (`firstTerm`), or at end of buffer when there is
none; in particular `INSERT INTO t VALUES ('a;b');` parses as a single
record whose text keeps the whole quoted clause and ends at the final
semicolon. -/
theorem claim_C2_quote_aware :
    (∀ (content : List Char) (start : Nat),
      findSemicolonEnd content start =
        match firstTerm (content.drop start) (false, false, false) with
        | some j => start + j + 1
        | none => content.length) ∧
    parseContent hfZero c2input [] =
      [{ name := "t".toList, object_type := SQLObjectType.INSERT, sql_content := c2input,
         start_line := 1, end_line := 1, file_path := [], dependencies := ["t".toList] }] ∧
    findSemicolonEnd c2input 0 = c2input.length :=
  ⟨findSemicolonEnd_eq, by decide, by decide⟩

/-- Claim C3: for a dollar-quoted body the resolver finds the least closing
`$$` after the opening one and ends the statement one past the first
semicolon after that closing delimiter (which lies at or beyond the end of
the body, so body semicolons cannot terminate the statement), or just after
the closing `$$` when no such semicolon exists; in particular
`CREATE FUNCTION f() RETURNS INT AS $$ return 1; $$;` is extracted whole. -/
theorem claim_C3_dollar_quoted_body :
    (∀ (content : List Char) (startPos : Nat),
      findDollarQuoteEnd content startPos =
        match leastOcc content ("$$".toList) (startPos + 2) with
        | none => -1
        | some e =>
          match leastOcc content (";".toList) (e + 2) with
          | some sp => (sp : Int) + 1
          | none => (e : Int) + 2) ∧
    (∀ (content : List Char) (startPos e sp : Nat),
      leastOcc content ("$$".toList) (startPos + 2) = some e →
      leastOcc content (";".toList) (e + 2) = some sp →
      e + 2 ≤ sp) ∧
    parseContent hfZero c3input [] =
      [{ name := "f".toList, object_type := SQLObjectType.FUNCTION, sql_content := c3input,
         start_line := 1, end_line := 1, file_path := [], dependencies := [] }] ∧
    findProcedureEnd c3input 0 = (c3input.length : Int) := by
  refine ⟨findDollarQuoteEnd_eq, ?_, by decide, by decide⟩
  intro content startPos e sp hdd hsp
  exact (leastOcc_mem_lower hsp).1

/-- Witness for claim C3's hypotheses at the concrete input `c3input`. -/
theorem claim_C3_dollar_quoted_body_witness :
    leastOcc c3input ("$$".toList) (35 + 2) = some 48 ∧
    leastOcc c3input (";".toList) (48 + 2) = some 50 ∧
    48 + 2 ≤ 50 :=
  ⟨by decide, by decide,
   claim_C3_dollar_quoted_body.2.1 c3input 35 48 50 (by decide) (by decide)⟩

/-- Claim C4: the records answered by `parseContent` are pairwise
non-overlapping in their `[start_line, end_line]` ranges, in both
directions of the source's overlap test. -/
theorem claim_C4_no_overlap :
    ∀ (hf : List Char → Nat) (content path : List Char),
      (parseContent hf content path).Pairwise (fun a b => noOverlap a b ∧ noOverlap b a) := by
  intro hf content path
  unfold parseContent
  exact removeOverlapping_pairwise _

/-- Counterexample to claim C5: `INSERT INTO t VALUES ('a;` has an
unterminated single quote (the scan finds no terminating semicolon at all),
yet `parse_content` still produces a record for the anchor match, spanning
to the end of the buffer — the claim says the match is dropped. -/
theorem claim_C5_counterexample :
    containsSub c5quoteInput ("'".toList) = true ∧
    firstTerm c5quoteInput (false, false, false) = none ∧
    parseContent hfZero c5quoteInput [] =
      [{ name := "t".toList, object_type := SQLObjectType.INSERT, sql_content := c5quoteInput,
         start_line := 1, end_line := 1, file_path := [], dependencies := ["t".toList] }] := by
  refine ⟨by decide, by decide, by decide⟩

/-- Claim C5 (amended): an anchor match is dropped exactly when the
boundary resolver answers `-1`; that happens for a dollar-quoted body with
no closing `$$` (and other matches of the file are unaffected, as the
concrete input shows), while an unterminated ordinary quote does not fail
the match — the default scan then answers end-of-buffer and a record is
still produced. -/
theorem claim_C5_amended :
    (∀ (hf : List Char → Nat) (content : List Char) (s : Nat) (t : SQLObjectType)
       (line : Nat) (path : List Char),
      findObjectEnd content s t = -1 →
      extractCompleteObject hf content s t line path = none) ∧
    (∀ (content : List Char) (startPos : Nat),
      leastOcc content ("$$".toList) (startPos + 2) = none →
      findDollarQuoteEnd content startPos = -1) ∧
    (∀ (content : List Char) (start : Nat),
      firstTerm (content.drop start) (false, false, false) = none →
      findSemicolonEnd content start = content.length) ∧
    parseContent hfZero c5dropInput [] =
      [{ name := "t".toList, object_type := SQLObjectType.TABLE,
         sql_content := "CREATE TABLE t (a INT);".toList,
         start_line := 2, end_line := 2, file_path := [], dependencies := ["t".toList] }] := by
  refine ⟨?_, ?_, ?_, by decide⟩
  · intro hf content s t line path h
    simp only [extractCompleteObject]
    simp [h]
  · intro content startPos h
    rw [findDollarQuoteEnd_eq, h]
  · intro content start h
    rw [findSemicolonEnd_eq, h]

/-- Witness for claim C5's amended hypotheses at concrete inputs. -/
theorem claim_C5_amended_witness :
    findObjectEnd c5dropInput 0 SQLObjectType.FUNCTION = -1 ∧
    extractCompleteObject hfZero c5dropInput 0 SQLObjectType.FUNCTION 1 [] = none ∧
    leastOcc c5dropInput ("$$".toList) (23 + 2) = none ∧
    findDollarQuoteEnd c5dropInput 23 = -1 ∧
    firstTerm (c5quoteInput.drop 0) (false, false, false) = none ∧
    findSemicolonEnd c5quoteInput 0 = c5quoteInput.length :=
  ⟨by decide,
   claim_C5_amended.1 hfZero c5dropInput 0 SQLObjectType.FUNCTION 1 [] (by decide),
   by decide,
   claim_C5_amended.2.1 c5dropInput 23 (by decide),
   by decide,
   claim_C5_amended.2.2.1 c5quoteInput 0 (by decide)⟩

/-- Claim C6: `parse_content` is a pure function of the content, the path
and the per-process hash seed, so two invocations with the same seed agree
on everything including placeholder names; moreover the hash seed can
influence nothing except the `name` field (every other field of every
record is seed-independent), and the synthetic placeholder path is itself
deterministic for a fixed seed. -/
theorem claim_C6_idempotent :
    (∀ (hf : List Char → Nat) (content path : List Char),
      parseContent hf content path = parseContent hf content path) ∧
    (∀ (hf hf' : List Char → Nat) (content path : List Char),
      parseContent hf content path = (parseContent hf' content path).map (withName hf)) ∧
    parseContent hfZero c6input [] =
      [{ name := "unnamed_tables_0".toList, object_type := SQLObjectType.TABLE,
         sql_content := "CREATE TABLE".toList, start_line := 1, end_line := 2,
         file_path := [], dependencies := [] }] :=
  ⟨fun _ _ _ => rfl, parseContent_withName, by decide⟩

/-- Claim C7: a failed file read makes `parse_file` answer `[]` (the
exception is absorbed, embedded as the `none` read result), and a file
whose read fails contributes nothing to `parse_folder`, which processes
the remaining entries exactly as if the failing file were absent. -/
theorem claim_C7_read_failure :
    (∀ (hf : List Char → Nat) (path : List Char), parseFile hf none path = []) ∧
    (∀ (hf : List Char → Nat) (dirPath name : List Char)
       (pre post : List (List Char × Option (List Char))) (t : SQLObjectType),
      parseFolder hf true dirPath (pre ++ (name, none) :: post) t =
        parseFolder hf true dirPath (pre ++ post) t) := by
  refine ⟨fun _ _ => rfl, ?_⟩
  intro hf dirPath name pre post t
  rw [parseFolder_true_eq, parseFolder_true_eq, List.filter_append, List.filter_append]
  cases h : hasSqlExt name with
  | false => simp [List.filter_cons, h]
  | true => simp [List.filter_cons, h, parseFile]

/-- Claim C8: `CREATE OR REPLACE VIEW v AS SELECT 1;` parses to exactly one
record of category `view` named `v`; and in general every record answered
by `parse_content` is one of the candidates generated for its own category
(whose anchor patterns produced it), and candidates always carry the
category they were generated for — records are never re-classified. -/
theorem claim_C8_category :
    parseContent hfZero c8input [] =
      [{ name := "v".toList, object_type := SQLObjectType.VIEW, sql_content := c8input,
         start_line := 1, end_line := 1, file_path := [], dependencies := [] }] ∧
    (∀ (hf : List Char → Nat) (content path : List Char) (o : SQLObject),
      o ∈ parseContent hf content path →
      o ∈ candidatesFor hf content path o.object_type) ∧
    (∀ (hf : List Char → Nat) (content path : List Char) (t : SQLObjectType) (o : SQLObject),
      o ∈ candidatesFor hf content path t → o.object_type = t) :=
  ⟨by decide, fun _ _ _ _ h => mem_parseContent_candidates h,
   fun _ _ _ _ _ h => candidatesFor_type h⟩

/-- Witness for claim C8's membership hypothesis at the concrete view
record. -/
theorem claim_C8_category_witness :
    ({ name := "v".toList, object_type := SQLObjectType.VIEW, sql_content := c8input,
       start_line := 1, end_line := 1, file_path := [], dependencies := [] } : SQLObject) ∈
      candidatesFor hfZero c8input [] SQLObjectType.VIEW :=
  claim_C8_category.2.1 hfZero c8input [] _ (by decide)

/-- Counterexample to claim C9: `x FROM FROM a JOIN b y` contains the
clause `FROM a JOIN b`, but the leftmost `FROM` match captures the
identifier `FROM` and its span swallows the clause's own `FROM`, so `a` is
not among the extracted dependencies. -/
theorem claim_C9_counterexample :
    containsSub c9ctrInput ("FROM a JOIN b".toList) = true ∧
    "a".toList ∉ extractDependencies c9ctrInput ∧
    extractDependencies c9ctrInput = ["FROM".toList, "b".toList] := by
  refine ⟨by decide, by decide, by decide⟩

/-- Claim C9 (amended): for the specification's example
`SELECT * FROM a JOIN b ON a.id=b.id;` the dependencies are exactly
`{a, b}` (the non-overlapping leftmost scan reaches both keywords there),
and dependency collections never contain duplicates. -/
theorem claim_C9_amended :
    extractDependencies c9exInput = ["a".toList, "b".toList] ∧
    "a".toList ∈ extractDependencies c9exInput ∧
    "b".toList ∈ extractDependencies c9exInput ∧
    (∀ (sql : List Char), (extractDependencies sql).Nodup) :=
  ⟨by decide, by decide, by decide, extractDependencies_nodup⟩

/-- Claim C10: `parse_folder` looks only at direct entries whose name ends
in the exact lowercase `.sql` (filtering the entries to those names changes
nothing; `A.SQL` is rejected, `a.sql` accepted), and for a nonexistent
directory or one with no `.sql` entries every category of the result maps
to the empty list. -/
theorem claim_C10_folder_filter :
    (∀ (hf : List Char → Nat) (dirPath : List Char)
       (entries : List (List Char × Option (List Char))) (t : SQLObjectType),
      parseFolder hf true dirPath entries t =
        parseFolder hf true dirPath (entries.filter (fun e => hasSqlExt e.1)) t) ∧
    (∀ (hf : List Char → Nat) (dirPath : List Char)
       (entries : List (List Char × Option (List Char))) (t : SQLObjectType),
      parseFolder hf false dirPath entries t = []) ∧
    (∀ (hf : List Char → Nat) (dirPath : List Char)
       (entries : List (List Char × Option (List Char))) (t : SQLObjectType),
      entries.filter (fun e => hasSqlExt e.1) = [] →
      parseFolder hf true dirPath entries t = []) ∧
    hasSqlExt ("A.SQL".toList) = false ∧
    hasSqlExt ("a.sql".toList) = true := by
  refine ⟨?_, fun _ _ _ _ => rfl, ?_, by decide, by decide⟩
  · intro hf dirPath entries t
    rw [parseFolder_true_eq, parseFolder_true_eq, List.filter_filter]
    have hff : List.filter (fun a => hasSqlExt a.1 && hasSqlExt a.1) entries =
        List.filter (fun e => hasSqlExt e.1) entries := by
      congr 1
      funext a
      exact Bool.and_self _
    rw [hff]
  · intro hf dirPath entries t h
    rw [parseFolder_true_eq, h]
    rfl

/-- Witness for claim C10's empty-filter hypothesis at a directory holding
only an uppercase `A.SQL` file. -/
theorem claim_C10_folder_filter_witness :
    ([(("A.SQL".toList), some ("CREATE TABLE t (x INT);".toList))].filter
      (fun e => hasSqlExt e.1) = []) ∧
    parseFolder hfZero true [] [("A.SQL".toList, some ("CREATE TABLE t (x INT);".toList))]
      SQLObjectType.TABLE = [] :=
  ⟨by decide,
   claim_C10_folder_filter.2.2.1 hfZero [] _ SQLObjectType.TABLE (by decide)⟩

end SqlExtract
